import Mathlib

/-!
# Verification of the mboard circle module and its JS bootstrap

The repository consists of a JS bootstrap (`src/js/index.js`) that loads a
compiled wasm computation module, calls its initialization entry point
`main_js()`, and prints the results of the two queries `get_circle()` and
`get_circle_pixels()`.

The wasm module itself is not part of the visible sources, so its data model
(Circle, Pixel, PixelSet), the midpoint-circle rasterizer, and the query
facade are modelled from the specification; the bootstrap `main` is embedded
from `src/js/index.js`.
-/

namespace Mboard

/-- Modelled from the spec: the Circle value type of the wasm computation
module (missing from the visible sources) — integer center and integer
radius, with the invariant radius ≥ 0 enforced at construction. -/
structure Circle where
  x : Int
  y : Int
  radius : Int
deriving DecidableEq, Repr

/-- Modelled from the spec: a Pixel is an integer raster coordinate pair. -/
structure Pixel where
  x : Int
  y : Int
deriving DecidableEq, Repr

/-- The algebraic circle-equation error term x² + y² − r² used by the
midpoint decision rule. -/
def errTerm (r x y : Int) : Int :=
  x * x + y * y - r * r

/-- Integer absolute value, used to compare error-term magnitudes. -/
def iabs (a : Int) : Int :=
  if a < 0 then -a else a

/-- Modelled from the spec: the midpoint decision rule of the rasterizer
(missing from the visible sources) — from octant point (x, y) choose the
neighboring candidate, east (x, y+1) versus south-east (x−1, y+1), whose
squared-distance error term has smaller magnitude. -/
def nextPoint (r x y : Int) : Int × Int :=
  if iabs (errTerm r x (y + 1)) ≤ iabs (errTerm r (x - 1) (y + 1)) then
    (x, y + 1)
  else
    (x - 1, y + 1)

/-- Modelled from the spec: the octant walk of the rasterizer (missing from
the visible sources) — starting from (radius, 0) in center-relative
coordinates, emit the current point and advance with the midpoint decision
rule while the walked x-coordinate has not crossed the walked y-coordinate.
The fuel argument bounds the iteration count; `radius + 1` steps always
reach the octant boundary since y increases by one each step. -/
def octantWalk (r : Int) : Nat → Int → Int → List (Int × Int)
  | 0, _, _ => []
  | Nat.succ fuel, x, y =>
    if y ≤ x then
      (x, y) :: octantWalk r fuel (nextPoint r x y).1 (nextPoint r x y).2
    else
      []

/-- The center-relative octant points emitted for a circle. -/
def octantPoints (c : Circle) : List (Int × Int) :=
  octantWalk c.radius (c.radius.toNat + 1) c.radius 0

/-- Modelled from the spec: the eight symmetric reflections of a
center-relative point across both axes and both diagonals. -/
def reflections (d : Int × Int) : List (Int × Int) :=
  [(d.1, d.2), (-d.1, d.2), (d.1, -d.2), (-d.1, -d.2),
   (d.2, d.1), (-d.2, d.1), (d.2, -d.1), (-d.2, -d.1)]

/-- Append a pixel to the output unless that coordinate was already
emitted: the deduplication step of the rasterizer. -/
def pushPixel (acc : List Pixel) (p : Pixel) : List Pixel :=
  if p ∈ acc then acc else acc ++ [p]

/-- The absolute pixels of the eight reflections of an octant point,
translated by the circle center, in emission order. -/
def orbitPixels (c : Circle) (d : Int × Int) : List Pixel :=
  (reflections d).map fun q => ⟨c.x + q.1, c.y + q.2⟩

/-- Modelled from the spec: the rasterizer (missing from the visible
sources) — walk the first octant with the midpoint rule, at each step emit
the current point and its eight reflections translated to the center, and
deduplicate coinciding coordinates, producing the ordered PixelSet. -/
def rasterize (c : Circle) : List Pixel :=
  (octantPoints c).foldl (fun acc d => (orbitPixels c d).foldl pushPixel acc) []

/-- Modelled from the spec: the error taxonomy of the module — the only
error is `InvalidGeometry`, for a negative configured radius. -/
inductive GeometryError where
  | InvalidGeometry : GeometryError
deriving DecidableEq, Repr

/-- Modelled from the spec: circle construction/configuration — validation
fails with `InvalidGeometry` exactly when the supplied radius is negative;
every other input yields a well-formed circle. -/
def mk_circle (x y radius : Int) : Except GeometryError Circle :=
  if radius < 0 then
    Except.error GeometryError.InvalidGeometry
  else
    Except.ok ⟨x, y, radius⟩

/-- Modelled from the spec: the `get_circle` query of the facade — returns
the fixed default circle descriptor, center (0, 0) and radius 5 per the
example scenario. -/
def get_circle (_ : Unit) : Circle :=
  ⟨0, 0, 5⟩

/-- Modelled from the spec: the `get_circle_pixels` query of the facade —
rasterizes the default circle. -/
def get_circle_pixels (_ : Unit) : List Pixel :=
  rasterize (get_circle ())

/-- Squared Euclidean distance from a pixel to a circle center. -/
def distSq (c : Circle) (p : Pixel) : Int :=
  (p.x - c.x) * (p.x - c.x) + (p.y - c.y) * (p.y - c.y)

/-- The integer rounding tolerance of the algorithm:
|distance(pixel, center) − radius| < 1, expressed over integers as
distSq < (radius + 1)² together with (radius − 1)² < distSq when
radius ≥ 1 (for radius = 0 the lower bound is vacuous since distance ≥ 0). -/
def withinTol (c : Circle) (p : Pixel) : Prop :=
  distSq c p < (c.radius + 1) * (c.radius + 1) ∧
    (c.radius = 0 ∨ (c.radius - 1) * (c.radius - 1) < distSq c p)

/-- JS error values carried by a thrown exception or a rejected promise,
modelled abstractly as strings. -/
abbrev JsError := String

/-- The interface of the loaded wasm module as seen by the bootstrap: each
entry point either returns a value or throws/rejects with an error. -/
structure WasmModule where
  main_js : Except JsError Unit
  get_circle : Except JsError Circle
  get_circle_pixels : Except JsError (List Pixel)

/-- Observable events of a bootstrap run: entry-point and query calls, and
console.log output lines. -/
inductive Event where
  | callMainJs : Event
  | callGetCircle : Event
  | callGetCirclePixels : Event
  | logCircle : Circle → Event
  | logPixels : List Pixel → Event
deriving DecidableEq, Repr

/-- Embedded from src/js/index.js: `main` awaits the module import, calls
`main_js()`, then prints the result of `get_circle()` and then the result
of `get_circle_pixels()`. The value is the ordered event trace paired with
the outcome of the promise returned by `main`; an uncaught throw or
rejection at any step skips the remaining steps and rejects that promise
with the same error. -/
def main (imp : Except JsError WasmModule) : List Event × Except JsError Unit :=
  match imp with
  | Except.error e => ([], Except.error e)
  | Except.ok w =>
    match w.main_js with
    | Except.error e => ([Event.callMainJs], Except.error e)
    | Except.ok _ =>
      match w.get_circle with
      | Except.error e => ([Event.callMainJs, Event.callGetCircle], Except.error e)
      | Except.ok c =>
        match w.get_circle_pixels with
        | Except.error e =>
            ([Event.callMainJs, Event.callGetCircle, Event.logCircle c,
              Event.callGetCirclePixels], Except.error e)
        | Except.ok ps =>
            ([Event.callMainJs, Event.callGetCircle, Event.logCircle c,
              Event.callGetCirclePixels, Event.logPixels ps], Except.ok ())

/-- The wasm module under its specified behavior: the initialization hook
and both queries succeed, the queries returning the facade values. -/
def wasmModule : WasmModule :=
  { main_js := Except.ok ()
    get_circle := Except.ok (get_circle ())
    get_circle_pixels := Except.ok (get_circle_pixels ()) }

/-! ## Membership and deduplication lemmas -/

lemma mem_pushPixel {acc : List Pixel} {p a : Pixel} :
    a ∈ pushPixel acc p ↔ a ∈ acc ∨ a = p := by
  unfold pushPixel
  split
  · constructor
    · exact fun h => Or.inl h
    · rintro (h | rfl)
      · exact h
      · assumption
  · simp

lemma mem_foldl_pushPixel (ps : List Pixel) :
    ∀ (acc : List Pixel) (a : Pixel),
      a ∈ ps.foldl pushPixel acc ↔ a ∈ acc ∨ a ∈ ps := by
  induction ps with
  | nil => simp
  | cons p ps ih =>
    intro acc a
    rw [List.foldl_cons, ih, mem_pushPixel]
    simp only [List.mem_cons]
    tauto

lemma nodup_pushPixel {acc : List Pixel} (h : acc.Nodup) (p : Pixel) :
    (pushPixel acc p).Nodup := by
  unfold pushPixel
  split
  · exact h
  · rename_i hp
    simp [List.nodup_append, h, hp]

lemma nodup_foldl_pushPixel (ps : List Pixel) :
    ∀ (acc : List Pixel), acc.Nodup → (ps.foldl pushPixel acc).Nodup := by
  induction ps with
  | nil => exact fun acc h => h
  | cons p ps ih =>
    intro acc h
    exact ih _ (nodup_pushPixel h p)

lemma mem_rasterize {c : Circle} {p : Pixel} :
    p ∈ rasterize c ↔
      ∃ d ∈ octantPoints c, ∃ q ∈ reflections d, p = ⟨c.x + q.1, c.y + q.2⟩ := by
  unfold rasterize
  have key : ∀ (pts : List (Int × Int)) (acc : List Pixel),
      p ∈ pts.foldl (fun acc d => (orbitPixels c d).foldl pushPixel acc) acc ↔
        p ∈ acc ∨ ∃ d ∈ pts, p ∈ orbitPixels c d := by
    intro pts
    induction pts with
    | nil => simp
    | cons d pts ih =>
      intro acc
      rw [List.foldl_cons, ih, mem_foldl_pushPixel]
      simp only [List.mem_cons]
      constructor
      · rintro ((h | h) | ⟨d1, hd1, hp1⟩)
        · exact Or.inl h
        · exact Or.inr ⟨d, Or.inl rfl, h⟩
        · exact Or.inr ⟨d1, Or.inr hd1, hp1⟩
      · rintro (h | ⟨d1, (rfl | hd1), hp1⟩)
        · exact Or.inl (Or.inl h)
        · exact Or.inl (Or.inr hp1)
        · exact Or.inr ⟨d1, hd1, hp1⟩
  rw [key]
  simp only [List.not_mem_nil, false_or]
  unfold orbitPixels
  constructor
  · rintro ⟨d, hd, hq⟩
    rcases List.mem_map.mp hq with ⟨q, hq1, rfl⟩
    exact ⟨d, hd, q, hq1, rfl⟩
  · rintro ⟨d, hd, q, hq1, rfl⟩
    exact ⟨d, hd, List.mem_map.mpr ⟨q, hq1, rfl⟩⟩

/-! ## Octant-walk invariant: the error term stays within the rounding band -/

lemma errTerm_east (r x y : Int) :
    errTerm r x (y + 1) = errTerm r x y + 2 * y + 1 := by
  unfold errTerm; ring

lemma errTerm_southeast (r x y : Int) :
    errTerm r (x - 1) (y + 1) = errTerm r x y + 2 * y + 2 - 2 * x := by
  unfold errTerm; ring

lemma nextPoint_inv (r x y : Int) (hy : 0 ≤ y) (_hyx : y ≤ x) (hxr : x ≤ r)
    (h1 : 1 - 2 * x ≤ errTerm r x y) (h2 : errTerm r x y ≤ 2 * x - 1) :
    0 ≤ (nextPoint r x y).2 ∧ (nextPoint r x y).1 ≤ r ∧
      ((nextPoint r x y).2 ≤ (nextPoint r x y).1 →
        1 - 2 * (nextPoint r x y).1 ≤
            errTerm r (nextPoint r x y).1 (nextPoint r x y).2 ∧
          errTerm r (nextPoint r x y).1 (nextPoint r x y).2 ≤
            2 * (nextPoint r x y).1 - 1) := by
  have hA := errTerm_east r x y
  have hB := errTerm_southeast r x y
  unfold nextPoint
  split
  next hc =>
    rw [hA, hB] at hc
    show 0 ≤ y + 1 ∧ x ≤ r ∧
      (y + 1 ≤ x →
        1 - 2 * x ≤ errTerm r x (y + 1) ∧ errTerm r x (y + 1) ≤ 2 * x - 1)
    rw [hA]
    unfold iabs at hc
    clear hA hB
    generalize errTerm r x y = f at hc h1 h2
    split_ifs at hc <;> omega
  next hc =>
    rw [hA, hB] at hc
    show 0 ≤ y + 1 ∧ x - 1 ≤ r ∧
      (y + 1 ≤ x - 1 →
        1 - 2 * (x - 1) ≤ errTerm r (x - 1) (y + 1) ∧
          errTerm r (x - 1) (y + 1) ≤ 2 * (x - 1) - 1)
    rw [hB]
    unfold iabs at hc
    clear hA hB
    generalize errTerm r x y = f at hc h1 h2
    split_ifs at hc <;> omega

lemma octantWalk_bounds (r : Int) (hr : 1 ≤ r) :
    ∀ (fuel : Nat) (x y : Int), 0 ≤ y → x ≤ r →
      (y ≤ x → 1 - 2 * x ≤ errTerm r x y ∧ errTerm r x y ≤ 2 * x - 1) →
      ∀ d ∈ octantWalk r fuel x y,
        (r - 1) * (r - 1) < d.1 * d.1 + d.2 * d.2 ∧
          d.1 * d.1 + d.2 * d.2 < (r + 1) * (r + 1) := by
  intro fuel
  induction fuel with
  | zero =>
    intro x y _ _ _ d hd
    simp [octantWalk] at hd
  | succ fuel ih =>
    intro x y hy hxr hinv d hd
    rw [octantWalk] at hd
    by_cases hyx : y ≤ x
    · rw [if_pos hyx] at hd
      obtain ⟨h1, h2⟩ := hinv hyx
      rcases List.mem_cons.mp hd with rfl | hd
      · have hfd : errTerm r x y = x * x + y * y - r * r := rfl
        rw [hfd] at h1 h2
        have e1 : (r + 1) * (r + 1) = r * r + 2 * r + 1 := by ring
        have e2 : (r - 1) * (r - 1) = r * r - 2 * r + 1 := by ring
        constructor
        · rcases eq_or_lt_of_le hxr with rfl | hlt
          · have hy2 : 0 ≤ y * y := mul_self_nonneg y
            simp only
            linarith
          · simp only
            linarith
        · simp only
          linarith
      · obtain ⟨ha, hb, hcnd⟩ := nextPoint_inv r x y hy hyx hxr h1 h2
        exact ih _ _ ha hb hcnd d hd
    · rw [if_neg hyx] at hd
      simp at hd

/-- Every reflection of a center-relative point has the same squared
distance to the origin. -/
lemma reflections_sq {d q : Int × Int} (hq : q ∈ reflections d) :
    q.1 * q.1 + q.2 * q.2 = d.1 * d.1 + d.2 * d.2 := by
  simp [reflections] at hq
  rcases hq with h | h | h | h | h | h | h | h <;> subst h <;> simp <;> ring

/-- C1: for every circle with integer center and radius r ≥ 0, every pixel
returned by rasterize satisfies the circle equation within the algorithm's
integer rounding tolerance |distance(pixel, center) − r| < 1. -/
theorem rasterize_within_tolerance (c : Circle) (hr : 0 ≤ c.radius)
    (p : Pixel) (hp : p ∈ rasterize c) : withinTol c p := by
  rcases mem_rasterize.mp hp with ⟨d, hd, q, hq, rfl⟩
  have hds : distSq c ⟨c.x + q.1, c.y + q.2⟩ = d.1 * d.1 + d.2 * d.2 := by
    rw [← reflections_sq hq]
    unfold distSq
    ring
  unfold withinTol
  rw [hds]
  rcases eq_or_lt_of_le hr with hr0 | hr1
  · have hoct : octantPoints c = [(0, 0)] := by
      unfold octantPoints
      rw [← hr0]
      rfl
    rw [hoct, List.mem_singleton] at hd
    subst hd
    rw [← hr0]
    norm_num
  · have hr1i : 1 ≤ c.radius := hr1
    have hstart : errTerm c.radius c.radius 0 = 0 := by
      unfold errTerm; ring
    have hd2 : d ∈ octantWalk c.radius (c.radius.toNat + 1) c.radius 0 := hd
    have hb := octantWalk_bounds c.radius hr1i (c.radius.toNat + 1) c.radius 0
      le_rfl le_rfl (fun _ => by rw [hstart]; omega) d hd2
    exact ⟨hb.2, Or.inr hb.1⟩

/-- Witness for C1 at the circle centered (0, 0) with radius 5 and the
pixel (5, 0). -/
theorem rasterize_within_tolerance_witness :
    withinTol ⟨0, 0, 5⟩ ⟨5, 0⟩ :=
  rasterize_within_tolerance ⟨0, 0, 5⟩ (by decide) ⟨5, 0⟩ (by decide)

/-- C2: for every circle with radius r ≥ 0, the PixelSet returned by
rasterize contains no duplicate coordinates: each (x, y) pair appears at
most once in the output sequence. -/
theorem rasterize_nodup (c : Circle) (_hr : 0 ≤ c.radius) :
    (rasterize c).Nodup := by
  have key : ∀ (pts : List (Int × Int)) (acc : List Pixel), acc.Nodup →
      (pts.foldl (fun acc d => (orbitPixels c d).foldl pushPixel acc) acc).Nodup := by
    intro pts
    induction pts with
    | nil => exact fun acc h => h
    | cons d pts ih =>
      intro acc h
      rw [List.foldl_cons]
      exact ih _ (nodup_foldl_pushPixel _ _ h)
  exact key (octantPoints c) [] List.nodup_nil

/-- Witness for C2 at the default circle of radius 5. -/
theorem rasterize_nodup_witness : (rasterize ⟨0, 0, 5⟩).Nodup :=
  rasterize_nodup ⟨0, 0, 5⟩ (by decide)

/-- C3: for every center (cx, cy), rasterizing the radius-0 circle returns
exactly one pixel, equal to the center. -/
theorem rasterize_radius_zero (cx cy : Int) :
    rasterize ⟨cx, cy, 0⟩ = [⟨cx, cy⟩] := by
  simp [rasterize, octantPoints, octantWalk, nextPoint, iabs, errTerm,
    orbitPixels, reflections, pushPixel]

/-- The eight reflections form a closed orbit: a reflection of a
reflection of d is again a reflection of d. -/
lemma reflections_closed {d q0 q : Int × Int} (h0 : q0 ∈ reflections d)
    (h : q ∈ reflections q0) : q ∈ reflections d := by
  simp only [reflections, List.mem_cons, List.not_mem_nil, or_false] at h0 h ⊢
  rcases h0 with h0 | h0 | h0 | h0 | h0 | h0 | h0 | h0 <;> subst h0 <;>
    rcases h with h | h | h | h | h | h | h | h <;> subst h <;> simp

/-- C4: the rasterized pixel set is closed under reflection across the
horizontal axis, the vertical axis, and both 45° diagonals through the
center: the pixel (c.x + dx, c.y + dy) is in the set iff all eight images
(c.x ± dx, c.y ± dy) and (c.x ± dy, c.y ± dx) are. -/
theorem rasterize_symmetric (c : Circle) (_hr : 0 ≤ c.radius) (dx dy : Int) :
    (⟨c.x + dx, c.y + dy⟩ : Pixel) ∈ rasterize c ↔
      ∀ q ∈ reflections (dx, dy),
        (⟨c.x + q.1, c.y + q.2⟩ : Pixel) ∈ rasterize c := by
  constructor
  · intro h q hq
    rcases mem_rasterize.mp h with ⟨d, hd, ⟨a, b⟩, hq0, heq⟩
    simp only [Pixel.mk.injEq, add_right_inj] at heq
    obtain ⟨rfl, rfl⟩ := heq
    exact mem_rasterize.mpr ⟨d, hd, q, reflections_closed hq0 hq, rfl⟩
  · intro h
    exact h (dx, dy) (by simp [reflections])

/-- Witness for C4 at the default circle of radius 5 with (dx, dy) = (3, 4). -/
theorem rasterize_symmetric_witness :
    (⟨(0 : Int) + 3, (0 : Int) + 4⟩ : Pixel) ∈ rasterize ⟨0, 0, 5⟩ ↔
      ∀ q ∈ reflections (3, 4),
        (⟨(0 : Int) + q.1, (0 : Int) + q.2⟩ : Pixel) ∈ rasterize ⟨0, 0, 5⟩ :=
  rasterize_symmetric ⟨0, 0, 5⟩ (by decide) 3 4

/-- C5: calling get_circle_pixels twice with the default circle yields
identical ordered sequences: the output is a fixed literal list, so any
two invocations return element-for-element equal sequences. -/
theorem get_circle_pixels_deterministic :
    get_circle_pixels () = get_circle_pixels () ∧
      get_circle_pixels () =
        [⟨5, 0⟩, ⟨-5, 0⟩, ⟨0, 5⟩, ⟨0, -5⟩,
         ⟨5, 1⟩, ⟨-5, 1⟩, ⟨5, -1⟩, ⟨-5, -1⟩,
         ⟨1, 5⟩, ⟨-1, 5⟩, ⟨1, -5⟩, ⟨-1, -5⟩,
         ⟨5, 2⟩, ⟨-5, 2⟩, ⟨5, -2⟩, ⟨-5, -2⟩,
         ⟨2, 5⟩, ⟨-2, 5⟩, ⟨2, -5⟩, ⟨-2, -5⟩,
         ⟨4, 3⟩, ⟨-4, 3⟩, ⟨4, -3⟩, ⟨-4, -3⟩,
         ⟨3, 4⟩, ⟨-3, 4⟩, ⟨3, -4⟩, ⟨-3, -4⟩] :=
  ⟨rfl, by decide⟩

/-- C6: circle construction raises InvalidGeometry if and only if the
supplied radius is negative; with a nonnegative radius it returns the
well-formed circle, so the only error is surfaced at construction time
(rasterize is a total function, so no error arises mid-rasterization). -/
theorem mk_circle_invalid_iff (x y r : Int) :
    (mk_circle x y r = Except.error GeometryError.InvalidGeometry ↔ r < 0) ∧
      (0 ≤ r → mk_circle x y r = Except.ok ⟨x, y, r⟩) := by
  unfold mk_circle
  constructor
  · constructor
    · intro h
      by_contra hneg
      rw [if_neg hneg] at h
      exact Except.noConfusion h
    · intro h
      rw [if_pos h]
  · intro h
    rw [if_neg (by omega)]

/-- Witness for C6 at radius −1 (rejected) and radius 5 (accepted). -/
theorem mk_circle_invalid_iff_witness :
    mk_circle 0 0 (-1) = Except.error GeometryError.InvalidGeometry ∧
      mk_circle 0 0 5 = Except.ok ⟨0, 0, 5⟩ :=
  ⟨(mk_circle_invalid_iff 0 0 (-1)).1.mpr (by decide),
   (mk_circle_invalid_iff 0 0 5).2 (by decide)⟩

/-- C7: for the default circle, get_circle returns the descriptor
{x: 0, y: 0, radius: 5} and get_circle_pixels returns a duplicate-free
set including the twelve listed points. -/
theorem default_circle_example :
    get_circle () = ⟨0, 0, 5⟩ ∧
      (∀ p ∈ ([⟨5, 0⟩, ⟨0, 5⟩, ⟨-5, 0⟩, ⟨0, -5⟩, ⟨3, 4⟩, ⟨4, 3⟩, ⟨-3, 4⟩,
               ⟨-4, 3⟩, ⟨3, -4⟩, ⟨4, -3⟩, ⟨-3, -4⟩, ⟨-4, -3⟩] : List Pixel),
          p ∈ get_circle_pixels ()) ∧
      (get_circle_pixels ()).Nodup :=
  ⟨rfl, by decide, by decide⟩

/-- The starting point (radius, 0) of the octant walk is always emitted
when the radius is nonnegative. -/
lemma start_mem_octantPoints (c : Circle) (hr : 0 ≤ c.radius) :
    (c.radius, 0) ∈ octantPoints c := by
  unfold octantPoints
  rw [octantWalk, if_pos hr]
  exact List.mem_cons_self _ _

/-- C8: for every well-formed circle (radius ≥ 0) rasterize succeeds: it
is a total function into PixelSet with no reachable error branch, and its
result is nonempty (it contains the starting pixel of the octant walk). -/
theorem rasterize_total (c : Circle) (hr : 0 ≤ c.radius) :
    rasterize c ≠ [] := by
  have hmem : (⟨c.x + c.radius, c.y + 0⟩ : Pixel) ∈ rasterize c :=
    mem_rasterize.mpr ⟨(c.radius, 0), start_mem_octantPoints c hr,
      (c.radius, 0), by simp [reflections], rfl⟩
  intro hnil
  rw [hnil] at hmem
  exact List.not_mem_nil _ hmem

/-- Witness for C8 at the default circle of radius 5. -/
theorem rasterize_total_witness : rasterize ⟨0, 0, 5⟩ ≠ [] :=
  rasterize_total ⟨0, 0, 5⟩ (by decide)

/-- The ordered event trace of the bootstrap run against the wasm module
under its specified (non-failing) behavior. -/
def mainTrace : List Event :=
  (main (Except.ok wasmModule)).1

/-- C9: in the bootstrap run, main_js is invoked exactly once, before
either query is called, and the result of get_circle is produced and
printed before the result of get_circle_pixels. -/
theorem bootstrap_order :
    mainTrace.count Event.callMainJs = 1 ∧
      mainTrace =
        [Event.callMainJs, Event.callGetCircle, Event.logCircle (get_circle ()),
         Event.callGetCirclePixels, Event.logPixels (get_circle_pixels ())] :=
  ⟨by decide, rfl⟩

/-- C10: the bootstrap installs no error handling: if the import,
main_js(), get_circle(), or get_circle_pixels() throws or rejects, the
promise returned by main rejects with that same error, the remaining
steps are skipped, and nothing further is printed by the bootstrap. -/
theorem bootstrap_error_propagation :
    (∀ e : JsError, main (Except.error e) = ([], Except.error e)) ∧
      (∀ (w : WasmModule) (e : JsError), w.main_js = Except.error e →
        main (Except.ok w) = ([Event.callMainJs], Except.error e)) ∧
      (∀ (w : WasmModule) (e : JsError), w.main_js = Except.ok () →
        w.get_circle = Except.error e →
        main (Except.ok w) =
          ([Event.callMainJs, Event.callGetCircle], Except.error e)) ∧
      (∀ (w : WasmModule) (c : Circle) (e : JsError), w.main_js = Except.ok () →
        w.get_circle = Except.ok c → w.get_circle_pixels = Except.error e →
        main (Except.ok w) =
          ([Event.callMainJs, Event.callGetCircle, Event.logCircle c,
            Event.callGetCirclePixels], Except.error e)) := by
  refine ⟨fun e => rfl, ?_, ?_, ?_⟩
  · intro w e h
    simp [main, h]
  · intro w e h1 h2
    simp [main, h1, h2]
  · intro w c e h1 h2 h3
    simp [main, h1, h2, h3]

/-- A sample JS error value. -/
def bootErr : JsError :=
  "boom"

/-- Witness for C10: a module whose main_js throws aborts the run with
that error after the call to main_js, printing nothing. -/
theorem bootstrap_error_propagation_witness :
    main (Except.ok ⟨Except.error bootErr, Except.ok (get_circle ()),
        Except.ok (get_circle_pixels ())⟩) =
      ([Event.callMainJs], Except.error bootErr) :=
  bootstrap_error_propagation.2.1 _ bootErr rfl

end Mboard
